import Mathlib

/-!
# Verification of the best-product selection and spatial-assignment pipeline

Shallow embedding of the core of `geospatial-tools`:

* `geospatial_tools/stac.py` — `StacSearch.search_for_date_ranges`,
  `StacSearch.sort_results_by_cloud_coverage`;
* `geospatial_tools/planetary_computer/sentinel_2.py` —
  `sentinel_2_complete_tile_search`, `find_best_product_per_s2_tile`,
  `_get_best_product_id_for_each_grid_tile`;
* `geospatial_tools/vector.py` — `create_grid_coordinates`,
  `generate_flattened_grid_coords`, `create_vector_grid`,
  `spatial_join_within`.

Machine floats are modelled as rationals, Python exceptions as `Except`,
the remote STAC catalog as a response stub, and thread-pool completion
order as an explicit permutation of the submitted tile list.
-/

namespace GeoTools

/-- A STAC item as the pipeline observes it: its id together with the two
properties read by the code, `eo:cloud_cover` and
`s2:nodata_pixel_percentage`. -/
structure Item where
  id : String
  cloud_cover : ℚ
  nodata_pixel_percentage : ℚ
deriving DecidableEq, Repr

/-- A single `catalog.search(...).items()` call either returns a list of
items or raises an `APIError`. -/
inductive QueryResult where
  | ok (items : List Item)
  | apiError (msg : String)
deriving DecidableEq, Repr

/-- The remote catalog, as a stub: `respond n dr` is the answer of the
`n`-th query (global call counter) issued for date range `dr`.  The query
filters (collection, cloud-cover bound, tile id) are fixed per stub. -/
structure CatalogStub where
  respond : ℕ → String → QueryResult

/-- Inner loop of `StacSearch.search_for_date_ranges` (stac.py:446-457):
one attempt iterates over all date ranges, extending the accumulated
`results` list, and stops at the first `APIError`.  Returns the error (if
any), the accumulated results (partial extends are kept, as in the
source), and the new call counter. -/
def attemptDateRanges (stub : CatalogStub) :
    List String → ℕ → List Item → Option String × List Item × ℕ
  | [], n, acc => (none, acc, n)
  | dr :: rest, n, acc =>
    match stub.respond n dr with
    | .ok items => attemptDateRanges stub rest (n + 1) (acc ++ items)
    | .apiError msg => (some msg, acc, n + 1)

/-- Observable trace of one `search_for_date_ranges` call: the returned
item list or the raised error, the number of base catalog queries issued,
and the log of `time.sleep` durations. -/
structure SearchTrace where
  result : Except String (List Item)
  queries : ℕ
  sleeps : List ℚ
deriving Repr

/-- Retry loop of `StacSearch.search_for_date_ranges` (stac.py:444-470):
`for attempt in range(1, max_retries + 1)` around the date-range loop.
On an `APIError` before the last attempt it sleeps `delay` and retries;
on the last attempt it re-raises.  Note the source has no `break` after a
successful attempt, so a successful date-range sweep is repeated on every
remaining attempt, extending `results` each time. -/
def searchAttemptLoop (stub : CatalogStub) (date_ranges : List String) (delay : ℚ) :
    ℕ → ℕ → List Item → List ℚ → SearchTrace
  | 0, n, acc, sleeps => ⟨.ok acc, n, sleeps⟩
  | remaining + 1, n, acc, sleeps =>
    match attemptDateRanges stub date_ranges n acc with
    | (none, acc', n') => searchAttemptLoop stub date_ranges delay remaining n' acc' sleeps
    | (some msg, acc', n') =>
      if remaining = 0 then ⟨.error msg, n', sleeps⟩
      else searchAttemptLoop stub date_ranges delay remaining n' acc' (sleeps ++ [delay])

/-- `StacSearch.search_for_date_ranges` (stac.py:394-470).  The source
defaults are `max_retries = 3`, `delay = 5`. -/
def search_for_date_ranges (stub : CatalogStub) (date_ranges : List String)
    (max_retries : ℕ) (delay : ℚ) : SearchTrace :=
  searchAttemptLoop stub date_ranges delay max_retries 0 [] []

/-- The sort key used by `sort_results_by_cloud_coverage`:
ascending `eo:cloud_cover`. -/
def itemCCle (a b : Item) : Prop := a.cloud_cover ≤ b.cloud_cover

instance : DecidableRel itemCCle :=
  fun a b => inferInstanceAs (Decidable (a.cloud_cover ≤ b.cloud_cover))

instance : IsTotal Item itemCCle := ⟨fun a b => le_total a.cloud_cover b.cloud_cover⟩

instance : IsTrans Item itemCCle := ⟨fun _ _ _ hab hbc => le_trans hab hbc⟩

instance : IsRefl Item itemCCle := ⟨fun a => le_refl a.cloud_cover⟩

/-- `StacSearch.sort_results_by_cloud_coverage` (stac.py:522-531): Python's
stable `sorted` keyed on `eo:cloud_cover` when `search_results` is
non-empty, `None` otherwise. -/
def sort_results_by_cloud_coverage (search_results : List Item) : Option (List Item) :=
  if search_results = [] then none
  else some (search_results.insertionSort itemCCle)

/-- Selection portion of `sentinel_2_complete_tile_search`
(sentinel_2.py:214-224): sort by cloud cover, return the first item whose
no-data percentage is strictly below `max_no_data_value` as the result
triple, the `"error: No results found"` triple when there are no items,
and the `"incomplete: ..."` triple when no item passes the bound. -/
def select_optimal_result (tile_id : String) (search_results : List Item)
    (max_no_data_value : ℚ) : String × String × Option ℚ :=
  match sort_results_by_cloud_coverage search_results with
  | none => (tile_id, "error: No results found", none)
  | some sorted_items =>
    match sorted_items.find? (fun item => decide (item.nodata_pixel_percentage < max_no_data_value)) with
    | some item => (tile_id, item.id, some item.cloud_cover)
    | none => (tile_id, "incomplete: No results found that cover the entire tile", none)

/-- `sentinel_2_complete_tile_search` (sentinel_2.py:196-228).  The call to
`search_for_date_ranges` sits outside the `try` block, and the `try`
catches only `IndexError`/`TypeError`, so an `APIError` raised after
exhausted retries propagates out of this function (modelled as
`Except.error`).  The source calls the search with its defaults
`max_retries = 3`, `delay = 5`; `max_cloud_cover` only parameterises the
remote query and is folded into the stub. -/
def sentinel_2_complete_tile_search (search_client : CatalogStub) (tile_id : String)
    (date_ranges : List String) (max_no_data_value : ℚ) :
    Except String (String × String × Option ℚ) :=
  match (search_for_date_ranges search_client date_ranges 3 5).result with
  | .error e => .error e
  | .ok items => .ok (select_optimal_result tile_id items max_no_data_value)

/-- Value stored in the `successful_results` dict by
`find_best_product_per_s2_tile`: `{"id": ..., "cloud_cover": ...}`. -/
structure SuccessEntry where
  id : String
  cloud_cover : Option ℚ
deriving DecidableEq, Repr

/-- Python `dict` update `d[k] = v`: overwrite in place when the key is
present (keeping its position), append otherwise. -/
def dictSet {α : Type} (d : List (String × α)) (k : String) (v : α) :
    List (String × α) :=
  if d.any (fun p => decide (p.1 = k)) then
    d.map (fun p => if p.1 = k then (k, v) else p)
  else d ++ [(k, v)]

/-- Association-list reading of a Python dict. -/
def pyLookup {α : Type} (k : String) : List (String × α) → Option α
  | [] => none
  | p :: rest => if p.1 = k then some p.2 else pyLookup k rest

/-- `successful_results = {tile: "" for tile in s2_tile_grid_list}`
(sentinel_2.py:238-240); the empty-string marker is modelled as `none`. -/
def initSuccessDict (s2_tile_grid_list : List String) :
    List (String × Option SuccessEntry) :=
  s2_tile_grid_list.foldl (fun d t => dictSet d t none) []

/-- The `as_completed` loop of `find_best_product_per_s2_tile`
(sentinel_2.py:255-264): each completed future's triple is bucketed by the
`"error:"` / `"incomplete:"` prefixes of its second component, and at the
end the successful dict is cleaned of its `""` markers.  A worker that
raised re-raises at `future.result()`, aborting the loop. -/
def bucketLoop (searchFn : String → Except String (String × String × Option ℚ)) :
    List String → List (String × Option SuccessEntry) → List String → List String →
    Except String (List (String × SuccessEntry) × List String × List String)
  | [], succ, inc, err =>
    .ok (succ.filterMap (fun p => p.2.map (fun v => (p.1, v))), inc, err)
  | t :: rest, succ, inc, err =>
    match searchFn t with
    | .error e => .error e
    | .ok (tile_id, optimal_result_id, cc) =>
      if optimal_result_id.startsWith "error:" then
        bucketLoop searchFn rest succ inc (err ++ [tile_id])
      else if optimal_result_id.startsWith "incomplete:" then
        bucketLoop searchFn rest succ (inc ++ [tile_id]) err
      else
        bucketLoop searchFn rest (dictSet succ tile_id (some ⟨optimal_result_id, cc⟩)) inc err

/-- `find_best_product_per_s2_tile` (sentinel_2.py:231-265).  The thread
pool is modelled by an explicit `completion_order` in which the per-tile
futures complete; `searchFn` is the per-tile search
(`sentinel_2_complete_tile_search` with a fixed client and parameters). -/
def find_best_product_per_s2_tile
    (searchFn : String → Except String (String × String × Option ℚ))
    (s2_tile_grid_list : List String) (completion_order : List String) :
    Except String (List (String × SuccessEntry) × List String × List String) :=
  bucketLoop searchFn completion_order (initSuccessDict s2_tile_grid_list) [] []

/-- A value of the tile dictionary consumed by the propagator
(`{"id": ..., "cloud_cover": ...}` for a successful tile search). -/
structure ProductEntry where
  id : String
  cloud_cover : ℚ
deriving DecidableEq, Repr

/-- Python dict comprehension
`{k: s2_tile_search_results[k] for k in feature_s2_tiles if k in s2_tile_search_results}`
(sentinel_2.py:285): sequential inserts into a fresh dict. -/
def dictComprehension (s2_tile_search_results : List (String × ProductEntry))
    (feature_s2_tiles : List String) : List (String × ProductEntry) :=
  feature_s2_tiles.foldl
    (fun d k =>
      match pyLookup k s2_tile_search_results with
      | some v => dictSet d k v
      | none => d)
    []

/-- Python `min(iterable, key=...)`: the leftmost element attaining the
minimal key (later elements replace the running best only when strictly
smaller). -/
def pyMinBy {α : Type} (key : α → ℚ) : List α → Option α
  | [] => none
  | x :: xs => some (xs.foldl (fun best a => if key a < key best then a else best) x)

/-- `_get_best_product_id_for_each_grid_tile` (sentinel_2.py:268-292).
When some required tile is missing from the search results the function
logs and returns `None`; a `KeyError` inside the `try` is caught and also
yields `None`; `min` over an empty dict would raise an uncaught
`ValueError` (modelled as `Except.error`). -/
def _get_best_product_id_for_each_grid_tile
    (s2_tile_search_results : List (String × ProductEntry))
    (feature_s2_tiles : List String) : Except String (Option String) :=
  if feature_s2_tiles.all
      (fun t => (s2_tile_search_results.map Prod.fst).contains t) then
    if feature_s2_tiles.length = 1 then
      match pyLookup feature_s2_tiles.headI s2_tile_search_results with
      | some entry => .ok (some entry.id)
      | none => .ok none
    else
      match pyMinBy (fun p => p.2.cloud_cover)
          (dictComprehension s2_tile_search_results feature_s2_tiles) with
      | some best => .ok (some best.2.id)
      | none => .error "ValueError: min() iterable argument is empty"
  else
    .ok none

/-! ## Grid construction (`vector.py`) -/

/-- `numpy.arange(start, stop, step)` over exact rationals: the values
`start + i * step` for `0 ≤ i < ⌈(stop - start) / step⌉`. -/
def arange (start stop step : ℚ) : List ℚ :=
  (List.range (⌈(stop - start) / step⌉.toNat)).map (fun i : ℕ => start + (i : ℚ) * step)

/-- `create_grid_coordinates` (vector.py:23-47): per-axis cell start
coordinates of the grid over `(min_lon, min_lat, max_lon, max_lat)`. -/
def create_grid_coordinates (min_lon min_lat max_lon max_lat grid_size : ℚ) :
    List ℚ × List ℚ :=
  (arange min_lon max_lon grid_size, arange min_lat max_lat grid_size)

/-- `generate_flattened_grid_coords` (vector.py:50-74):
`np.meshgrid(lon, lat)` followed by flattening both grids, i.e. the pairs
`(lon[j], lat[i])` in row-major order (`i` outer). -/
def generate_flattened_grid_coords (lon_coords lat_coords : List ℚ) :
    List (ℚ × ℚ) :=
  lat_coords.flatMap (fun lat => lon_coords.map (fun lon => (lon, lat)))

/-- `create_vector_grid` (vector.py:99-139): one square cell
`[(x, y), (x+s, y), (x+s, y+s), (x, y+s)]` per flattened coordinate pair,
represented by its bottom-left corner. -/
def create_vector_grid (min_lon min_lat max_lon max_lat grid_size : ℚ) :
    List (ℚ × ℚ) :=
  generate_flattened_grid_coords (arange min_lon max_lon grid_size)
    (arange min_lat max_lat grid_size)

/-- The planar region covered by one grid cell of size `s` anchored at
`(c.1, c.2)`. -/
def cellBounds (s : ℚ) (c : ℚ × ℚ) : Set (ℚ × ℚ) :=
  Set.Icc c.1 (c.1 + s) ×ˢ Set.Icc c.2 (c.2 + s)

/-! ## `spatial_join_within` (`vector.py:456-507`)

A `GeoDataFrame` is modelled by its observable column list and feature
count; the external `gpd.sjoin` primitive is a parameter giving, per
vector-feature index, the emission-ordered list of matched polygon
names. -/

structure VectorFrame where
  columns : List String
  nRows : ℕ
deriving DecidableEq, Repr

/-- Pandas column assignment `df[col] = ...`: in-place, appending the
column when absent. -/
def addColumn (cols : List String) (c : String) : List String :=
  if c ∈ cols then cols else cols ++ [c]

/-- Pandas `df.rename(columns={old: new})` on the column list. -/
def renameColumn (cols : List String) (old new : String) : List String :=
  cols.map (fun c => if c = old then new else c)

/-- Pandas `df.drop(columns=[c])` on the column list. -/
def dropColumn (cols : List String) (c : String) : List String :=
  cols.filter (fun d => decide (d ≠ c))

/-- `spatial_join_within` (vector.py:456-507), observable behaviour:

* the input `vector_features` is mutated in place at vector.py:494
  (`vector_features[temp_feature_id] = [uuid.uuid4() ...]`) — the first
  component of the result is the caller's view of the input after the
  call;
* the left `gpd.sjoin` + `groupby(feature_id).agg(list)` + merge
  pipeline attaches, per feature, the list of matched polygon names
  (`joinMatches i`), or a single NaN (modelled `none`) when there is no
  match, and vector.py:505 applies Python `sorted` to each list;
* the returned frame is a new object built by `merge`/`rename`/`drop`.

Result: `(input after call, returned frame, per-feature stored list)`. -/
def spatial_join_within (vector_features : VectorFrame)
    (joinMatches : ℕ → List String) (polygon_column vector_column_name : String) :
    VectorFrame × VectorFrame × (ℕ → Option (List String)) :=
  let inputAfter : VectorFrame :=
    ⟨addColumn vector_features.columns "feature_id", vector_features.nRows⟩
  let merged : VectorFrame :=
    ⟨addColumn inputAfter.columns polygon_column, vector_features.nRows⟩
  let renamed : VectorFrame :=
    ⟨renameColumn merged.columns polygon_column vector_column_name, merged.nRows⟩
  let returned : VectorFrame :=
    ⟨dropColumn renamed.columns "feature_id", renamed.nRows⟩
  let storedLists : ℕ → Option (List String) := fun i =>
    match joinMatches i with
    | [] => none
    | ms => some (ms.insertionSort (fun a b => a ≤ b))
  (inputAfter, returned, storedLists)

/-! ## Retry-loop lemmas (C3, C4) -/

/-- With a catalog that fails every query and at least one date range, one
attempt issues exactly one query, keeps the accumulator, and reports the
error. -/
theorem attemptDateRanges_fail (stub : CatalogStub) (msg : String)
    (hfail : ∀ n dr, stub.respond n dr = .apiError msg) :
    ∀ dr rest n acc,
      attemptDateRanges stub (dr :: rest) n acc = (some msg, acc, n + 1) := by
  intro dr rest n acc
  simp [attemptDateRanges, hfail n dr]

/-- Retry-loop unfolding under an always-failing catalog: `r ≥ 1` pending
attempts issue exactly `r` queries, sleep `r - 1` times for `delay`, and
end in the raised error. -/
theorem searchAttemptLoop_fail (stub : CatalogStub) (msg : String) (delay : ℚ)
    (dr : String) (rest : List String)
    (hfail : ∀ n dr0, stub.respond n dr0 = .apiError msg) :
    ∀ r n acc sleeps, 1 ≤ r →
      searchAttemptLoop stub (dr :: rest) delay r n acc sleeps =
        ⟨.error msg, n + r, sleeps ++ List.replicate (r - 1) delay⟩ := by
  intro r
  induction r with
  | zero => intro n acc sleeps h; omega
  | succ r ih =>
    intro n acc sleeps _
    rw [searchAttemptLoop, attemptDateRanges_fail stub msg hfail dr rest n acc]
    by_cases hr : r = 0
    · subst hr
      simp [searchAttemptLoop]
    · simp only [if_neg hr]
      rw [ih (n + 1) acc (sleeps ++ [delay]) (by omega)]
      have hr1 : r - 1 + 1 = r := by omega
      have hrep : List.replicate r delay = delay :: List.replicate (r - 1) delay := by
        rw [← hr1, List.replicate_succ, hr1]
      have hsucc : r + 1 - 1 = r := by omega
      congr 1
      · omega
      · rw [hsucc, hrep, List.append_assoc, List.singleton_append]

/-- C3 (amended): when every catalog query raises a transient error and
there is at least one date range, `search_for_date_ranges` makes exactly
`max_retries` attempts (one failing query per attempt) with the fixed
`delay` slept between consecutive attempts (`max_retries - 1` sleeps), and
then the error is raised — it propagates out of
`sentinel_2_complete_tile_search` as an exception instead of being
returned as a typed `Error{reason}` outcome. -/
theorem search_retry_exhaustion_raises (stub : CatalogStub) (msg : String)
    (dr : String) (rest : List String) (max_retries : ℕ) (delay : ℚ)
    (tile_id : String) (max_no_data_value : ℚ)
    (hfail : ∀ n dr0, stub.respond n dr0 = .apiError msg)
    (hmr : 1 ≤ max_retries) :
    search_for_date_ranges stub (dr :: rest) max_retries delay =
      ⟨.error msg, max_retries, List.replicate (max_retries - 1) delay⟩
    ∧ sentinel_2_complete_tile_search stub tile_id (dr :: rest) max_no_data_value =
      .error msg := by
  have h3 := searchAttemptLoop_fail stub msg delay dr rest hfail max_retries 0 [] [] hmr
  have hdef : search_for_date_ranges stub (dr :: rest) max_retries delay =
      ⟨.error msg, max_retries, List.replicate (max_retries - 1) delay⟩ := by
    rw [search_for_date_ranges, h3]
    simp
  refine ⟨hdef, ?_⟩
  rw [sentinel_2_complete_tile_search]
  have h3' := searchAttemptLoop_fail stub msg 5 dr rest hfail 3 0 [] [] (by omega)
  rw [search_for_date_ranges, h3']

/-- C3 witness: concrete always-failing catalog, three attempts, two
five-second sleeps, raised error. -/
theorem search_retry_exhaustion_raises_witness :
    search_for_date_ranges ⟨fun _ _ => .apiError "transient"⟩ ["2020-01-01/2020-03-31"] 3 5 =
      ⟨.error "transient", 3, [5, 5]⟩
    ∧ sentinel_2_complete_tile_search ⟨fun _ _ => .apiError "transient"⟩ "10SDJ"
        ["2020-01-01/2020-03-31"] 5 = .error "transient" := by
  have h := search_retry_exhaustion_raises ⟨fun _ _ => .apiError "transient"⟩ "transient"
    "2020-01-01/2020-03-31" [] 3 5 "10SDJ" 5 (fun _ _ => rfl) (by omega)
  refine ⟨?_, h.2⟩
  rw [h.1]
  rfl

/-- C3 counterexample: the claim says exhausted retries end in a returned
`Error{reason}` outcome; on this input the per-tile search instead raises
(the `APIError` escapes as an exception, there is no returned triple). -/
theorem search_retry_exhaustion_counterexample :
    sentinel_2_complete_tile_search ⟨fun _ _ => .apiError "transient"⟩ "10SDJ"
        ["2020-01-01/2020-03-31"] 5 = .error "transient"
    ∧ ¬ ∃ r, sentinel_2_complete_tile_search ⟨fun _ _ => .apiError "transient"⟩ "10SDJ"
        ["2020-01-01/2020-03-31"] 5 = .ok r := by
  constructor
  · rfl
  · rintro ⟨r, hr⟩
    rw [show sentinel_2_complete_tile_search ⟨fun _ _ => .apiError "transient"⟩ "10SDJ"
        ["2020-01-01/2020-03-31"] 5 = .error "transient" from rfl] at hr
    exact Except.noConfusion hr

/-- C4: with one date range and a catalog that answers every query with the
single item `P` and never errors, the retry loop (which lacks a `break`
after a successful attempt) issues three catalog queries for that one
date range and returns the item three times, instead of the specified one
query per date range with each item contributed once. -/
theorem date_range_union_triplicates :
    search_for_date_ranges ⟨fun _ _ => .ok [⟨"P", 1, 0⟩]⟩ ["2020-01-01/2020-03-31"] 3 5 =
      ⟨.ok [⟨"P", 1, 0⟩, ⟨"P", 1, 0⟩, ⟨"P", 1, 0⟩], 3, []⟩ := by
  rfl

/-! ## Sort stability and the selection rule (C5) -/

/-- Inserting an item into any list places it before every element of
equal cloud cover, so the equal-key fibre gains the new item at its
front. -/
theorem filter_orderedInsert (q : ℚ) (a : Item) :
    ∀ L : List Item,
      (L.orderedInsert itemCCle a).filter (fun i => decide (i.cloud_cover = q)) =
        if a.cloud_cover = q then
          a :: L.filter (fun i => decide (i.cloud_cover = q))
        else L.filter (fun i => decide (i.cloud_cover = q)) := by
  intro L
  induction L with
  | nil =>
    by_cases hq : a.cloud_cover = q <;> simp [List.orderedInsert, List.filter, hq]
  | cons b t ih =>
    by_cases hab : itemCCle a b
    · rw [List.orderedInsert, if_pos hab]
      by_cases hq : a.cloud_cover = q <;> simp [List.filter, hq]
    · rw [List.orderedInsert, if_neg hab]
      have hblt : b.cloud_cover < a.cloud_cover := by
        have := lt_of_not_le hab
        exact this
      by_cases hq : a.cloud_cover = q
      · have hbq : ¬ b.cloud_cover = q := by
          intro hb
          rw [hq] at hblt
          rw [hb] at hblt
          exact lt_irrefl q hblt
        simp [List.filter, hbq, ih, hq]
      · by_cases hbq : b.cloud_cover = q <;> simp [List.filter, hbq, ih, hq]

/-- Stability of the cloud-cover sort: for every cloud-cover value, the
sorted list's fibre at that value is exactly the input's fibre, in input
order. -/
theorem filter_insertionSort (q : ℚ) :
    ∀ items : List Item,
      (items.insertionSort itemCCle).filter (fun i => decide (i.cloud_cover = q)) =
        items.filter (fun i => decide (i.cloud_cover = q)) := by
  intro items
  induction items with
  | nil => rfl
  | cons a t ih =>
    rw [List.insertionSort, filter_orderedInsert q a]
    by_cases hq : a.cloud_cover = q <;> simp [List.filter, hq, ih]

/-- `find?` returns the head of the first decomposition whose prefix all
fails the predicate. -/
theorem find?_first {α : Type} (p : α → Bool) (it : α) :
    ∀ pre post : List α, (∀ j ∈ pre, p j = false) → p it = true →
      (pre ++ it :: post).find? p = some it := by
  intro pre
  induction pre with
  | nil => intro post _ hit; simp [List.find?, hit]
  | cons b t ih =>
    intro post hpre hit
    have hb : p b = false := hpre b (List.mem_cons_self b t)
    simp only [List.cons_append, List.find?, hb]
    exact ih post (fun j hj => hpre j (List.mem_cons_of_mem b hj)) hit

/-- Unfolding of `select_optimal_result` for a non-empty candidate list. -/
theorem select_optimal_result_nonempty (tile_id : String) (items : List Item)
    (maxND : ℚ) (hne : items ≠ []) :
    select_optimal_result tile_id items maxND =
      match (items.insertionSort itemCCle).find?
          (fun item => decide (item.nodata_pixel_percentage < maxND)) with
      | some item => (tile_id, item.id, some item.cloud_cover)
      | none => (tile_id, "incomplete: No results found that cover the entire tile", none) := by
  rw [select_optimal_result, sort_results_by_cloud_coverage, if_neg hne]

/-- C5: the unioned candidates are sorted ascending by cloud cover with a
stable sort (a permutation of the input preserving every equal-cloud-cover
fibre); the result is `Found` (the `(tile, product_id, cloud_cover)`
triple) for the first candidate in sorted order whose no-data percentage
is strictly below the bound; `Incomplete` when candidates exist but none
is below the bound; and `Error{"No results found"}` when the candidate
list is empty. -/
theorem selection_rule (tile_id : String) (items : List Item) (maxND : ℚ) :
    List.Sorted itemCCle (items.insertionSort itemCCle)
    ∧ List.Perm (items.insertionSort itemCCle) items
    ∧ (∀ q : ℚ, (items.insertionSort itemCCle).filter (fun i => decide (i.cloud_cover = q)) =
        items.filter (fun i => decide (i.cloud_cover = q)))
    ∧ (items = [] →
        select_optimal_result tile_id items maxND = (tile_id, "error: No results found", none))
    ∧ (∀ pre it post, items.insertionSort itemCCle = pre ++ it :: post →
        (∀ j ∈ pre, ¬ j.nodata_pixel_percentage < maxND) →
        it.nodata_pixel_percentage < maxND →
        select_optimal_result tile_id items maxND = (tile_id, it.id, some it.cloud_cover))
    ∧ ((∀ j ∈ items, ¬ j.nodata_pixel_percentage < maxND) → items ≠ [] →
        select_optimal_result tile_id items maxND =
          (tile_id, "incomplete: No results found that cover the entire tile", none)) := by
  refine ⟨List.sorted_insertionSort itemCCle items, List.perm_insertionSort itemCCle items,
    fun q => filter_insertionSort q items, ?_, ?_, ?_⟩
  · intro h
    subst h
    rfl
  · intro pre it post hdecomp hpre hit
    have hne : items ≠ [] := by
      intro h
      subst h
      simp [List.insertionSort] at hdecomp
    rw [select_optimal_result_nonempty tile_id items maxND hne, hdecomp,
      find?_first _ it pre post
        (fun j hj => decide_eq_false (hpre j hj)) (decide_eq_true hit)]
  · intro hnone hne
    rw [select_optimal_result_nonempty tile_id items maxND hne]
    have hfind : (items.insertionSort itemCCle).find?
        (fun item => decide (item.nodata_pixel_percentage < maxND)) = none := by
      rw [List.find?_eq_none]
      intro x hx
      simp only [decide_eq_true_eq]
      exact hnone x ((List.mem_insertionSort itemCCle).mp hx)
    rw [hfind]

/-! ## Outcome buckets of the resolver (C1, C2) -/

/-- The three outcome buckets of `find_best_product_per_s2_tile`. -/
inductive Bucket where
  | success
  | incomplete
  | err
deriving DecidableEq, Repr

/-- Bucket of a per-tile result string, per the prefix dispatch at
sentinel_2.py:257-263. -/
def classifyOutcome (optimal_result_id : String) : Bucket :=
  if optimal_result_id.startsWith "error:" then .err
  else if optimal_result_id.startsWith "incomplete:" then .incomplete
  else .success

/-- Bucket a tile's search lands in (meaningful when the search returns
rather than raises). -/
def outcomeBucket (searchFn : String → Except String (String × String × Option ℚ))
    (t : String) : Bucket :=
  match searchFn t with
  | .ok r => classifyOutcome r.2.1
  | .error _ => .err

/-- Membership in the cleaned successful-results dict: a key survives the
`v != ""` cleaning iff it holds a non-marker value. -/
theorem mem_cleaned (t : String) (d : List (String × Option SuccessEntry)) :
    t ∈ (d.filterMap (fun p => p.2.map (fun v => (p.1, v)))).map Prod.fst ↔
      ∃ v, (t, some v) ∈ d := by
  rw [List.mem_map]
  constructor
  · rintro ⟨q, hq, hqt⟩
    rw [List.mem_filterMap] at hq
    obtain ⟨p, hp, hmap⟩ := hq
    cases ho : p.2 with
    | none =>
      rw [ho] at hmap
      exact absurd hmap (by simp)
    | some v =>
      rw [ho] at hmap
      have hq2 : q = (p.1, v) := by
        simpa using hmap.symm
      refine ⟨v, ?_⟩
      have hpt : p.1 = t := by
        rw [hq2] at hqt
        exact hqt
      have hpeq : p = (t, some v) := by
        rw [← hpt, ← ho]
      rw [← hpeq]
      exact hp
  · rintro ⟨v, hv⟩
    exact ⟨(t, v), List.mem_filterMap.mpr ⟨(t, some v), hv, rfl⟩, rfl⟩

/-- How a Python dict write changes which keys hold non-marker values. -/
theorem exists_mem_dictSet {α : Type} (d : List (String × Option α)) (k t : String)
    (w : Option α) :
    (∃ v, (t, some v) ∈ dictSet d k w) ↔
      (t = k ∧ ∃ v, w = some v) ∨ (t ≠ k ∧ ∃ v, (t, some v) ∈ d) := by
  rw [dictSet]
  by_cases hany : d.any (fun p => decide (p.1 = k))
  · rw [if_pos hany]
    by_cases ht : t = k
    · subst ht
      simp only [List.mem_map, eq_self_iff_true, true_and]
      constructor
      · rintro ⟨v, q, hq, hfq⟩
        by_cases hqk : q.1 = t
        · rw [if_pos hqk] at hfq
          exact Or.inl ⟨v, congrArg Prod.snd hfq⟩
        · rw [if_neg hqk] at hfq
          exact absurd (congrArg Prod.fst hfq) (by simpa using hqk)
      · rintro (⟨v, hv⟩ | ⟨hne, _⟩)
        · obtain ⟨q, hq, hqk⟩ : ∃ q ∈ d, q.1 = t := by
            have := List.any_eq_true.mp hany
            obtain ⟨q, hq, hdq⟩ := this
            exact ⟨q, hq, of_decide_eq_true hdq⟩
          exact ⟨v, q, hq, by rw [if_pos hqk, hv]⟩
        · exact absurd rfl hne
    · simp only [List.mem_map]
      constructor
      · rintro ⟨v, q, hq, hfq⟩
        by_cases hqk : q.1 = k
        · rw [if_pos hqk] at hfq
          exact absurd (congrArg Prod.fst hfq).symm ht
        · rw [if_neg hqk] at hfq
          exact Or.inr ⟨ht, v, hfq ▸ hq⟩
      · rintro (⟨hk, _⟩ | ⟨-, v, hv⟩)
        · exact absurd hk ht
        · refine ⟨v, (t, some v), hv, ?_⟩
          rw [if_neg]
          simpa using ht
  · rw [if_neg hany]
    have hnk : ∀ q ∈ d, q.1 ≠ k := by
      intro q hq hqk
      exact hany (List.any_eq_true.mpr ⟨q, hq, decide_eq_true hqk⟩)
    by_cases ht : t = k
    · subst ht
      simp only [List.mem_append, List.mem_singleton]
      constructor
      · rintro ⟨v, hv | hv⟩
        · exact absurd rfl (hnk _ hv)
        · exact Or.inl ⟨trivial, v, (congrArg Prod.snd hv).symm⟩
      · rintro (⟨-, v, hv⟩ | ⟨hne, -⟩)
        · exact ⟨v, Or.inr (by rw [hv])⟩
        · exact absurd rfl hne
    · simp only [List.mem_append, List.mem_singleton]
      constructor
      · rintro ⟨v, hv | hv⟩
        · exact Or.inr ⟨ht, v, hv⟩
        · exact absurd (congrArg Prod.fst hv) ht
      · rintro (⟨hk, -⟩ | ⟨-, v, hv⟩)
        · exact absurd hk ht
        · exact ⟨v, Or.inl hv⟩

/-- `dictSet` with the `""` marker keeps every stored value a marker. -/
theorem dictSet_none_values {d : List (String × Option SuccessEntry)} (k : String)
    (hd : ∀ p ∈ d, p.2 = none) :
    ∀ p ∈ dictSet d k (none : Option SuccessEntry), p.2 = none := by
  intro p hp
  rw [dictSet] at hp
  by_cases hany : d.any (fun q => decide (q.1 = k))
  · rw [if_pos hany] at hp
    obtain ⟨q, hq, hfq⟩ := List.mem_map.mp hp
    by_cases hqk : q.1 = k
    · rw [if_pos hqk] at hfq
      rw [← hfq]
    · rw [if_neg hqk] at hfq
      rw [← hfq]
      exact hd q hq
  · rw [if_neg hany] at hp
    rcases List.mem_append.mp hp with h | h
    · exact hd p h
    · rw [List.mem_singleton.mp h]

/-- Every value of the freshly initialized successful-results dict is the
`""` marker. -/
theorem initSuccessDict_values (s2_tile_grid_list : List String) :
    ∀ p ∈ initSuccessDict s2_tile_grid_list, p.2 = none := by
  rw [initSuccessDict]
  suffices h : ∀ (l : List String) (d : List (String × Option SuccessEntry)),
      (∀ p ∈ d, p.2 = none) →
      ∀ p ∈ l.foldl (fun d t => dictSet d t none) d, p.2 = none by
    exact h s2_tile_grid_list [] (by simp)
  intro l
  induction l with
  | nil => intro d hd; exact hd
  | cons u rest ih =>
    intro d hd
    exact ih (dictSet d u none) (dictSet_none_values u hd)

/-- Full characterization of the `as_completed` bucketing loop: when every
tile in the completion order has a returning search that echoes its tile
id, the loop returns, and membership of each bucket is determined by the
prior bucket contents plus the classification of the tile's outcome. -/
theorem bucketLoop_spec (f : String → Except String (String × String × Option ℚ)) :
    ∀ (order : List String) (succ : List (String × Option SuccessEntry))
      (inc err : List String),
      (∀ t ∈ order, (f t).toOption.map (fun r => r.1) = some t) →
      ∃ S I E, bucketLoop f order succ inc err = .ok (S, I, E)
        ∧ (∀ t, t ∈ E ↔ t ∈ err ∨ (t ∈ order ∧ outcomeBucket f t = .err))
        ∧ (∀ t, t ∈ I ↔ t ∈ inc ∨ (t ∈ order ∧ outcomeBucket f t = .incomplete))
        ∧ (∀ t, t ∈ S.map Prod.fst ↔
            (∃ v, (t, some v) ∈ succ) ∨ (t ∈ order ∧ outcomeBucket f t = .success)) := by
  intro order
  induction order with
  | nil =>
    intro succ inc err _
    refine ⟨_, inc, err, rfl, ?_, ?_, ?_⟩
    · intro t
      simp
    · intro t
      simp
    · intro t
      rw [mem_cleaned]
      simp
  | cons u rest ih =>
    intro succ inc err hfst
    have hu := hfst u (List.mem_cons_self u rest)
    cases hfu : f u with
    | error e =>
      rw [hfu] at hu
      simp [Except.toOption] at hu
    | ok r =>
      obtain ⟨u', rid, cc⟩ := r
      rw [hfu] at hu
      have hueq : u' = u := by
        simpa [Except.toOption] using hu
      subst hueq
      have hbu : outcomeBucket f u' = classifyOutcome rid := by
        rw [outcomeBucket, hfu]
      have hrest : ∀ t ∈ rest, (f t).toOption.map (fun r => r.1) = some t :=
        fun t ht => hfst t (List.mem_cons_of_mem u' ht)
      simp only [bucketLoop, hfu]
      by_cases h1 : rid.startsWith "error:"
      · simp only [h1, if_true]
        have hbu' : outcomeBucket f u' = .err := by
          rw [hbu, classifyOutcome, if_pos h1]
        obtain ⟨S, I, E, hrun, hE, hI, hS⟩ := ih succ inc (err ++ [u']) hrest
        refine ⟨S, I, E, hrun, ?_, ?_, ?_⟩
        · intro t
          rw [hE t, List.mem_append, List.mem_singleton]
          constructor
          · rintro ((h | h) | ⟨hr, hb⟩)
            · exact Or.inl h
            · exact Or.inr ⟨h ▸ List.mem_cons_self u' rest, h ▸ hbu'⟩
            · exact Or.inr ⟨List.mem_cons_of_mem u' hr, hb⟩
          · rintro (h | ⟨hur, hb⟩)
            · exact Or.inl (Or.inl h)
            · rcases List.mem_cons.mp hur with he | hr
              · exact Or.inl (Or.inr he)
              · exact Or.inr ⟨hr, hb⟩
        · intro t
          rw [hI t]
          constructor
          · rintro (h | ⟨hr, hb⟩)
            · exact Or.inl h
            · exact Or.inr ⟨List.mem_cons_of_mem u' hr, hb⟩
          · rintro (h | ⟨hur, hb⟩)
            · exact Or.inl h
            · rcases List.mem_cons.mp hur with he | hr
              · rw [he, hbu'] at hb
                exact Bucket.noConfusion hb
              · exact Or.inr ⟨hr, hb⟩
        · intro t
          rw [hS t]
          constructor
          · rintro (h | ⟨hr, hb⟩)
            · exact Or.inl h
            · exact Or.inr ⟨List.mem_cons_of_mem u' hr, hb⟩
          · rintro (h | ⟨hur, hb⟩)
            · exact Or.inl h
            · rcases List.mem_cons.mp hur with he | hr
              · rw [he, hbu'] at hb
                exact Bucket.noConfusion hb
              · exact Or.inr ⟨hr, hb⟩
      · by_cases h2 : rid.startsWith "incomplete:"
        · simp only [h1, h2, if_false, if_true, Bool.false_eq_true]
          have hbu' : outcomeBucket f u' = .incomplete := by
            rw [hbu, classifyOutcome, if_neg (by simp [h1]), if_pos h2]
          obtain ⟨S, I, E, hrun, hE, hI, hS⟩ := ih succ (inc ++ [u']) err hrest
          refine ⟨S, I, E, hrun, ?_, ?_, ?_⟩
          · intro t
            rw [hE t]
            constructor
            · rintro (h | ⟨hr, hb⟩)
              · exact Or.inl h
              · exact Or.inr ⟨List.mem_cons_of_mem u' hr, hb⟩
            · rintro (h | ⟨hur, hb⟩)
              · exact Or.inl h
              · rcases List.mem_cons.mp hur with he | hr
                · rw [he, hbu'] at hb
                  exact Bucket.noConfusion hb
                · exact Or.inr ⟨hr, hb⟩
          · intro t
            rw [hI t, List.mem_append, List.mem_singleton]
            constructor
            · rintro ((h | h) | ⟨hr, hb⟩)
              · exact Or.inl h
              · exact Or.inr ⟨h ▸ List.mem_cons_self u' rest, h ▸ hbu'⟩
              · exact Or.inr ⟨List.mem_cons_of_mem u' hr, hb⟩
            · rintro (h | ⟨hur, hb⟩)
              · exact Or.inl (Or.inl h)
              · rcases List.mem_cons.mp hur with he | hr
                · exact Or.inl (Or.inr he)
                · exact Or.inr ⟨hr, hb⟩
          · intro t
            rw [hS t]
            constructor
            · rintro (h | ⟨hr, hb⟩)
              · exact Or.inl h
              · exact Or.inr ⟨List.mem_cons_of_mem u' hr, hb⟩
            · rintro (h | ⟨hur, hb⟩)
              · exact Or.inl h
              · rcases List.mem_cons.mp hur with he | hr
                · rw [he, hbu'] at hb
                  exact Bucket.noConfusion hb
                · exact Or.inr ⟨hr, hb⟩
        · simp only [h1, h2, if_false, Bool.false_eq_true]
          have hbu' : outcomeBucket f u' = .success := by
            rw [hbu, classifyOutcome, if_neg (by simp [h1]), if_neg (by simp [h2])]
          obtain ⟨S, I, E, hrun, hE, hI, hS⟩ :=
            ih (dictSet succ u' (some ⟨rid, cc⟩)) inc err hrest
          refine ⟨S, I, E, hrun, ?_, ?_, ?_⟩
          · intro t
            rw [hE t]
            constructor
            · rintro (h | ⟨hr, hb⟩)
              · exact Or.inl h
              · exact Or.inr ⟨List.mem_cons_of_mem u' hr, hb⟩
            · rintro (h | ⟨hur, hb⟩)
              · exact Or.inl h
              · rcases List.mem_cons.mp hur with he | hr
                · rw [he, hbu'] at hb
                  exact Bucket.noConfusion hb
                · exact Or.inr ⟨hr, hb⟩
          · intro t
            rw [hI t]
            constructor
            · rintro (h | ⟨hr, hb⟩)
              · exact Or.inl h
              · exact Or.inr ⟨List.mem_cons_of_mem u' hr, hb⟩
            · rintro (h | ⟨hur, hb⟩)
              · exact Or.inl h
              · rcases List.mem_cons.mp hur with he | hr
                · rw [he, hbu'] at hb
                  exact Bucket.noConfusion hb
                · exact Or.inr ⟨hr, hb⟩
          · intro t
            rw [hS t, exists_mem_dictSet]
            constructor
            · rintro ((⟨he, -⟩ | ⟨-, hv⟩) | ⟨hr, hb⟩)
              · exact Or.inr ⟨he ▸ List.mem_cons_self u' rest, he ▸ hbu'⟩
              · exact Or.inl hv
              · exact Or.inr ⟨List.mem_cons_of_mem u' hr, hb⟩
            · rintro (h | ⟨hur, hb⟩)
              · by_cases he : t = u'
                · exact Or.inl (Or.inl ⟨he, ⟨rid, cc⟩, rfl⟩)
                · exact Or.inl (Or.inr ⟨he, h⟩)
              · rcases List.mem_cons.mp hur with he | hr
                · exact Or.inl (Or.inl ⟨he, ⟨rid, cc⟩, rfl⟩)
                · exact Or.inr ⟨hr, hb⟩

/-- C1: when the resolver's per-tile searches all return (echoing their
tile id) and the futures complete in any order that is a permutation of
the submitted tile list, `find_best_product_per_s2_tile` returns, and
every submitted tile id lands in exactly one of the three outcome buckets
(successful-results keys, incomplete list, error list) — never in more
than one and never dropped. -/
theorem outcome_bucket_exclusivity
    (searchFn : String → Except String (String × String × Option ℚ))
    (s2_tile_grid_list completion_order : List String)
    (horder : completion_order.Perm s2_tile_grid_list)
    (hfst : ∀ t ∈ completion_order, (searchFn t).toOption.map (fun r => r.1) = some t) :
    ∃ S I E,
      find_best_product_per_s2_tile searchFn s2_tile_grid_list completion_order =
        .ok (S, I, E)
      ∧ ∀ t ∈ s2_tile_grid_list,
          (t ∈ S.map Prod.fst ∧ t ∉ I ∧ t ∉ E) ∨
          (t ∉ S.map Prod.fst ∧ t ∈ I ∧ t ∉ E) ∨
          (t ∉ S.map Prod.fst ∧ t ∉ I ∧ t ∈ E) := by
  obtain ⟨S, I, E, hrun, hE, hI, hS⟩ :=
    bucketLoop_spec searchFn completion_order (initSuccessDict s2_tile_grid_list) [] [] hfst
  refine ⟨S, I, E, hrun, ?_⟩
  intro t ht
  have htord : t ∈ completion_order := horder.mem_iff.mpr ht
  have hinit : ¬ ∃ v, (t, some v) ∈ initSuccessDict s2_tile_grid_list := by
    rintro ⟨v, hv⟩
    exact Option.noConfusion (initSuccessDict_values s2_tile_grid_list _ hv)
  have hE' : t ∈ E ↔ outcomeBucket searchFn t = .err := by
    rw [hE t]
    simp [htord]
  have hI' : t ∈ I ↔ outcomeBucket searchFn t = .incomplete := by
    rw [hI t]
    simp [htord]
  have hS' : t ∈ S.map Prod.fst ↔ outcomeBucket searchFn t = .success := by
    rw [hS t]
    simp [htord, hinit]
  cases hb : outcomeBucket searchFn t with
  | success =>
    exact Or.inl ⟨hS'.mpr hb, fun h => Bucket.noConfusion (hb ▸ hI'.mp h),
      fun h => Bucket.noConfusion (hb ▸ hE'.mp h)⟩
  | incomplete =>
    exact Or.inr (Or.inl ⟨fun h => Bucket.noConfusion (hb ▸ hS'.mp h), hI'.mpr hb,
      fun h => Bucket.noConfusion (hb ▸ hE'.mp h)⟩)
  | err =>
    exact Or.inr (Or.inr ⟨fun h => Bucket.noConfusion (hb ▸ hS'.mp h),
      fun h => Bucket.noConfusion (hb ▸ hI'.mp h), hE'.mpr hb⟩)

/-- Test fixture for the resolver: one found tile, one incomplete tile,
and everything else erroring, always echoing the queried tile id. -/
def sampleTileSearch (t : String) : Except String (String × String × Option ℚ) :=
  if t = "10SDJ" then .ok (t, "S2B_MSIL2A_PRODUCT", some 12)
  else if t = "22KBV" then
    .ok (t, "incomplete: No results found that cover the entire tile", none)
  else .ok (t, "error: No results found", none)

/-- C1 witness: three tiles with a found, an incomplete and an error
outcome, completing in a different order than submitted; each lands in
exactly one bucket. -/
theorem outcome_bucket_exclusivity_witness :
    (["31TCJ", "10SDJ", "22KBV"].Perm ["10SDJ", "22KBV", "31TCJ"]
      ∧ (∀ t ∈ ["31TCJ", "10SDJ", "22KBV"],
          (sampleTileSearch t).toOption.map (fun r => r.1) = some t))
    ∧ ∃ S I E,
        find_best_product_per_s2_tile sampleTileSearch
          ["10SDJ", "22KBV", "31TCJ"] ["31TCJ", "10SDJ", "22KBV"] = .ok (S, I, E)
        ∧ ∀ t ∈ ["10SDJ", "22KBV", "31TCJ"],
            (t ∈ S.map Prod.fst ∧ t ∉ I ∧ t ∉ E) ∨
            (t ∉ S.map Prod.fst ∧ t ∈ I ∧ t ∉ E) ∨
            (t ∉ S.map Prod.fst ∧ t ∉ I ∧ t ∈ E) := by
  refine ⟨⟨by decide, by decide⟩, ?_⟩
  exact outcome_bucket_exclusivity sampleTileSearch
    ["10SDJ", "22KBV", "31TCJ"] ["31TCJ", "10SDJ", "22KBV"] (by decide) (by decide)

/-- The bucketing loop returns iff every pending search returns. -/
theorem bucketLoop_isOk (f : String → Except String (String × String × Option ℚ)) :
    ∀ (order : List String) (succ : List (String × Option SuccessEntry))
      (inc err : List String),
      (bucketLoop f order succ inc err).isOk = true ↔
        ∀ t ∈ order, (f t).isOk = true := by
  intro order
  induction order with
  | nil =>
    intro succ inc err
    simp [bucketLoop, Except.isOk, Except.toBool]
  | cons u rest ih =>
    intro succ inc err
    cases hfu : f u with
    | error e =>
      simp only [bucketLoop, hfu]
      constructor
      · intro h
        exact absurd h (by simp [Except.isOk, Except.toBool])
      · intro h
        have hcon := h u (List.mem_cons_self u rest)
        rw [hfu] at hcon
        exact absurd hcon (by simp [Except.isOk, Except.toBool])
    | ok r =>
      obtain ⟨tid, rid, cc⟩ := r
      have hok : (f u).isOk = true := by
        simp [hfu, Except.isOk, Except.toBool]
      simp only [bucketLoop, hfu]
      rw [List.forall_mem_cons]
      split
      · rw [ih]
        simp [hok]
      · split
        · rw [ih]
          simp [hok]
        · rw [ih]
          simp [hok]

/-- C2 (amended): the resolver call returns its three outcome buckets iff
no per-tile search in the completion order raises; tiles whose failures
are surfaced as returned `"error:"`/`"incomplete:"` outcome strings do not
abort it, but a single search that raises (e.g. `APIError` after retry
exhaustion) aborts the entire call with that exception. -/
theorem resolver_returns_iff_no_search_raises
    (searchFn : String → Except String (String × String × Option ℚ))
    (s2_tile_grid_list completion_order : List String) :
    (find_best_product_per_s2_tile searchFn s2_tile_grid_list completion_order).isOk = true
      ↔ ∀ t ∈ completion_order, (searchFn t).isOk = true := by
  rw [find_best_product_per_s2_tile]
  exact bucketLoop_isOk searchFn completion_order (initSuccessDict s2_tile_grid_list) [] []

/-- C2 witness: instantiating the iff at a two-tile run where both
searches return shows the resolver returns. -/
theorem resolver_returns_iff_no_search_raises_witness :
    (find_best_product_per_s2_tile
        (fun t => Except.ok (t, "S2A_PRODUCT", some (3 : ℚ)))
        ["11SKA", "33TWN"] ["33TWN", "11SKA"]).isOk = true
      ↔ ∀ t ∈ ["33TWN", "11SKA"],
          ((fun t => Except.ok (t, "S2A_PRODUCT", some (3 : ℚ)) :
            String → Except String (String × String × Option ℚ)) t).isOk = true :=
  resolver_returns_iff_no_search_raises _ ["11SKA", "33TWN"] ["33TWN", "11SKA"]

/-- C2 counterexample: one tile's search raises terminally while the other
tile's search succeeds; the resolver call aborts with that exception
instead of returning its three buckets. -/
theorem resolver_abort_counterexample :
    (fun t => if t = "11SKA" then (.error "APIError: retries exhausted" :
        Except String (String × String × Option ℚ))
      else .ok (t, "S2A_PRODUCT", some (3 : ℚ))) "11SKA" =
        .error "APIError: retries exhausted"
    ∧ (fun t => if t = "11SKA" then (.error "APIError: retries exhausted" :
        Except String (String × String × Option ℚ))
      else .ok (t, "S2A_PRODUCT", some (3 : ℚ))) "33TWN" =
        .ok ("33TWN", "S2A_PRODUCT", some (3 : ℚ))
    ∧ find_best_product_per_s2_tile
        (fun t => if t = "11SKA" then .error "APIError: retries exhausted"
          else .ok (t, "S2A_PRODUCT", some (3 : ℚ)))
        ["11SKA", "33TWN"] ["11SKA", "33TWN"] =
        .error "APIError: retries exhausted" := by
  refine ⟨by simp, by simp, ?_⟩
  rfl

/-- C5 witness (spec example): candidates `{cc 1, nd 10}` and
`{cc 2, nd 1}` with `max_no_data_pct = 5`: the first is skipped for its
no-data value and the second is returned as `Found`. -/
theorem selection_rule_witness :
    ([Item.mk "P1" 1 10, Item.mk "P2" 2 1].insertionSort itemCCle =
        [Item.mk "P1" 1 10] ++ Item.mk "P2" 2 1 :: []
      ∧ (∀ j ∈ [Item.mk "P1" 1 10], ¬ j.nodata_pixel_percentage < 5)
      ∧ (Item.mk "P2" 2 1).nodata_pixel_percentage < 5)
    ∧ select_optimal_result "10SDJ" [Item.mk "P1" 1 10, Item.mk "P2" 2 1] 5 =
        ("10SDJ", "P2", some 2) := by
  refine ⟨⟨by decide, by decide, by decide⟩, ?_⟩
  exact (selection_rule "10SDJ" [Item.mk "P1" 1 10, Item.mk "P2" 2 1] 5).2.2.2.2.1
    [Item.mk "P1" 1 10] (Item.mk "P2" 2 1) [] (by decide) (by decide) (by decide)

/-! ## Propagation (C6, C7) -/

/-- C6: a fine feature whose covering-tile list is non-empty but contains
a tile missing from the search-result index is mapped to `None` — no
best-effort selection from the present subset. -/
theorem coverage_gap_skips
    (s2_tile_search_results : List (String × ProductEntry))
    (feature_s2_tiles : List String) (t0 : String)
    (_hne : feature_s2_tiles ≠ [])
    (ht0 : t0 ∈ feature_s2_tiles)
    (hmissing : t0 ∉ s2_tile_search_results.map Prod.fst) :
    _get_best_product_id_for_each_grid_tile s2_tile_search_results feature_s2_tiles =
      .ok none := by
  rw [_get_best_product_id_for_each_grid_tile, if_neg]
  intro hall
  rw [List.all_eq_true] at hall
  have := hall t0 ht0
  exact hmissing (by simpa using this)

/-- C6 witness (spec example): `T = [tileA, tileB]` with only `tileA`
indexed maps to `None`, not to `tileA`'s product id. -/
theorem coverage_gap_skips_witness :
    ((["tileA", "tileB"] : List String) ≠ []
      ∧ "tileB" ∈ ["tileA", "tileB"]
      ∧ "tileB" ∉ ([("tileA", ProductEntry.mk "PA" 10)].map Prod.fst))
    ∧ _get_best_product_id_for_each_grid_tile [("tileA", ProductEntry.mk "PA" 10)]
        ["tileA", "tileB"] = .ok none := by
  refine ⟨⟨by decide, by decide, by decide⟩, ?_⟩
  exact coverage_gap_skips [("tileA", ProductEntry.mk "PA" 10)]
    ["tileA", "tileB"] "tileB" (by decide) (by decide) (by decide)

/-- Cloud cover recorded in the search-result index for a tile name (`0`
when absent; only used at present keys). -/
def ccOf (s2_tile_search_results : List (String × ProductEntry)) (u : String) : ℚ :=
  match pyLookup u s2_tile_search_results with
  | some e => e.cloud_cover
  | none => 0

/-- A fold of Python `min` never moves off an element no later element
strictly beats. -/
theorem foldl_min_fixed {α : Type} (key : α → ℚ) (x : α) :
    ∀ l : List α, (∀ a ∈ l, ¬ key a < key x) →
      l.foldl (fun best a => if key a < key best then a else best) x = x := by
  intro l
  induction l with
  | nil => intro _; rfl
  | cons c t ih =>
    intro h
    simp only [List.foldl_cons, if_neg (h c (List.mem_cons_self c t))]
    exact ih (fun a ha => h a (List.mem_cons_of_mem c ha))

/-- A fold of Python `min` started at a beaten accumulator lands on the
first strict minimum. -/
theorem foldl_min_first {α : Type} (key : α → ℚ) (x : α) :
    ∀ (l1 : List α) (c : α) (l2 : List α),
      key x < key c → (∀ a ∈ l1, key x < key a) → (∀ a ∈ l2, ¬ key a < key x) →
      (l1 ++ x :: l2).foldl (fun best a => if key a < key best then a else best) c = x := by
  intro l1
  induction l1 with
  | nil =>
    intro c l2 hc _ h2
    simp only [List.nil_append, List.foldl_cons, if_pos hc]
    exact foldl_min_fixed key x l2 h2
  | cons b t ih =>
    intro c l2 hc h1 h2
    have hb : key x < key b := h1 b (List.mem_cons_self b t)
    simp only [List.cons_append, List.foldl_cons]
    by_cases hbc : key b < key c
    · rw [if_pos hbc]
      exact ih b l2 hb (fun a ha => h1 a (List.mem_cons_of_mem b ha)) h2
    · rw [if_neg hbc]
      exact ih c l2 hc (fun a ha => h1 a (List.mem_cons_of_mem b ha)) h2

/-- Python `min(_, key=...)` returns the leftmost element of minimal key:
with a strictly-beaten prefix and a no-better suffix, it returns the
split point. -/
theorem pyMinBy_first_min {α : Type} (key : α → ℚ) (x : α)
    (l1 l2 : List α) (h1 : ∀ a ∈ l1, key x < key a) (h2 : ∀ a ∈ l2, key x ≤ key a) :
    pyMinBy key (l1 ++ x :: l2) = some x := by
  have h2' : ∀ a ∈ l2, ¬ key a < key x := fun a ha => not_lt.mpr (h2 a ha)
  cases l1 with
  | nil =>
    simp only [List.nil_append, pyMinBy]
    rw [foldl_min_fixed key x l2 h2']
  | cons c t =>
    simp only [List.cons_append, pyMinBy, Option.some.injEq]
    exact foldl_min_first key x t c l2 (h1 c (List.mem_cons_self c t))
      (fun a ha => h1 a (List.mem_cons_of_mem c ha)) h2'

/-- Rewriting a consistent value at a present key leaves a Python dict
unchanged. -/
theorem dictSet_eq_self (s2_tile_search_results : List (String × ProductEntry))
    {d : List (String × ProductEntry)} (k : String) (v : ProductEntry)
    (hcons : ∀ p ∈ d, pyLookup p.1 s2_tile_search_results = some p.2)
    (hv : pyLookup k s2_tile_search_results = some v)
    (hk : d.any (fun p => decide (p.1 = k)) = true) :
    dictSet d k v = d := by
  rw [dictSet, if_pos hk]
  have hfix : ∀ p ∈ d, (if p.1 = k then (k, v) else p) = p := by
    intro p hp
    by_cases hpk : p.1 = k
    · rw [if_pos hpk]
      have h1 : pyLookup k s2_tile_search_results = some p.2 := hpk ▸ hcons p hp
      have h2 : v = p.2 := Option.some.inj (hv.symm.trans h1)
      obtain ⟨p1, p2⟩ := p
      simp only at hpk h2
      rw [hpk, h2]
    · rw [if_neg hpk]
  rw [List.map_congr_left hfix]
  exact List.map_id d

/-- Elements added by `dictSet` come from the dict or are the written
pair. -/
theorem mem_dictSet_elim {α : Type} {d : List (String × α)} {k : String} {v : α}
    {p : String × α} (hp : p ∈ dictSet d k v) : p ∈ d ∨ p = (k, v) := by
  rw [dictSet] at hp
  by_cases hany : d.any (fun q => decide (q.1 = k))
  · rw [if_pos hany] at hp
    obtain ⟨q, hq, hfq⟩ := List.mem_map.mp hp
    by_cases hqk : q.1 = k
    · rw [if_pos hqk] at hfq
      exact Or.inr hfq.symm
    · rw [if_neg hqk] at hfq
      exact Or.inl (hfq ▸ hq)
  · rw [if_neg hany] at hp
    rcases List.mem_append.mp hp with h | h
    · exact Or.inl h
    · exact Or.inr (List.mem_singleton.mp h)

/-- One step of the dict-comprehension fold. -/
def dcStep (s2_tile_search_results : List (String × ProductEntry))
    (d : List (String × ProductEntry)) (k : String) : List (String × ProductEntry) :=
  match pyLookup k s2_tile_search_results with
  | some v => dictSet d k v
  | none => d

theorem dictComprehension_eq_foldl (s2_tile_search_results : List (String × ProductEntry))
    (feature_s2_tiles : List String) :
    dictComprehension s2_tile_search_results feature_s2_tiles =
      feature_s2_tiles.foldl (dcStep s2_tile_search_results) [] := by
  rw [dictComprehension]
  rfl

/-- Everything a dict-comprehension fold accumulates is either inherited
or a consistent entry keyed in the processed list. -/
theorem dcFold_mem (s2_tile_search_results : List (String × ProductEntry)) :
    ∀ (l : List String) (d : List (String × ProductEntry)) (p : String × ProductEntry),
      p ∈ l.foldl (dcStep s2_tile_search_results) d →
      p ∈ d ∨ (p.1 ∈ l ∧ pyLookup p.1 s2_tile_search_results = some p.2) := by
  intro l
  induction l with
  | nil => intro d p hp; exact Or.inl hp
  | cons k rest ih =>
    intro d p hp
    rw [List.foldl_cons] at hp
    rcases ih (dcStep s2_tile_search_results d k) p hp with h | h
    · rw [dcStep] at h
      cases hk : pyLookup k s2_tile_search_results with
      | none =>
        rw [hk] at h
        exact Or.inl h
      | some v =>
        rw [hk] at h
        rcases mem_dictSet_elim h with h' | h'
        · exact Or.inl h'
        · refine Or.inr ⟨?_, ?_⟩
          · rw [h']
            exact List.mem_cons_self k rest
          · rw [h']
            exact hk
    · exact Or.inr ⟨List.mem_cons_of_mem k h.1, h.2⟩

/-- A dict-comprehension fold over keys all present in a consistent dict
appends only new, consistent entries. -/
theorem dcFold_grows (s2_tile_search_results : List (String × ProductEntry)) :
    ∀ (l : List String) (d : List (String × ProductEntry)),
      (∀ p ∈ d, pyLookup p.1 s2_tile_search_results = some p.2) →
      ∃ NEW, l.foldl (dcStep s2_tile_search_results) d = d ++ NEW
        ∧ ∀ p ∈ NEW, p.1 ∈ l ∧ pyLookup p.1 s2_tile_search_results = some p.2 := by
  intro l
  induction l with
  | nil =>
    intro d _
    exact ⟨[], by simp, by simp⟩
  | cons k rest ih =>
    intro d hcons
    rw [List.foldl_cons]
    cases hk : pyLookup k s2_tile_search_results with
    | none =>
      simp only [dcStep, hk]
      obtain ⟨NEW, hfold, hnew⟩ := ih d hcons
      exact ⟨NEW, hfold, fun p hp =>
        ⟨List.mem_cons_of_mem k (hnew p hp).1, (hnew p hp).2⟩⟩
    | some v =>
      simp only [dcStep, hk]
      by_cases hany : d.any (fun q => decide (q.1 = k))
      · rw [dictSet_eq_self s2_tile_search_results k v hcons hk hany]
        obtain ⟨NEW, hfold, hnew⟩ := ih d hcons
        exact ⟨NEW, hfold, fun p hp =>
          ⟨List.mem_cons_of_mem k (hnew p hp).1, (hnew p hp).2⟩⟩
      · rw [dictSet, if_neg hany]
        have hcons' : ∀ p ∈ d ++ [(k, v)], pyLookup p.1 s2_tile_search_results = some p.2 := by
          intro p hp
          rcases List.mem_append.mp hp with h | h
          · exact hcons p h
          · rw [List.mem_singleton.mp h]
            exact hk
        obtain ⟨NEW, hfold, hnew⟩ := ih (d ++ [(k, v)]) hcons'
        refine ⟨(k, v) :: NEW, by rw [hfold]; simp, ?_⟩
        intro p hp
        rcases List.mem_cons.mp hp with h | h
        · rw [h]
          exact ⟨List.mem_cons_self k rest, hk⟩
        · exact ⟨List.mem_cons_of_mem k (hnew p h).1, (hnew p h).2⟩

/-- C7: a feature covered by more than one tile, all present in the
search-result index, is assigned the product id of the covering tile with
the numerically smallest cloud cover; on ties the first minimum in the
list's order wins. -/
theorem multi_tile_min_cloud_cover
    (s2_tile_search_results : List (String × ProductEntry))
    (pre post : List String) (t : String) (e : ProductEntry)
    (hall : ∀ u ∈ pre ++ t :: post, u ∈ s2_tile_search_results.map Prod.fst)
    (hlen : 1 < (pre ++ t :: post).length)
    (he : pyLookup t s2_tile_search_results = some e)
    (hmin : ∀ u ∈ pre ++ t :: post, e.cloud_cover ≤ ccOf s2_tile_search_results u)
    (hfirst : ∀ u ∈ pre, e.cloud_cover < ccOf s2_tile_search_results u) :
    _get_best_product_id_for_each_grid_tile s2_tile_search_results (pre ++ t :: post) =
      .ok (some e.id) := by
  have htpre : t ∉ pre := by
    intro ht
    have := hfirst t ht
    rw [ccOf, he] at this
    exact lt_irrefl _ this
  have hrelevant : ∃ NEW,
      dictComprehension s2_tile_search_results (pre ++ t :: post) =
        pre.foldl (dcStep s2_tile_search_results) [] ++ (t, e) :: NEW
      ∧ ∀ p ∈ NEW, p.1 ∈ post ∧ pyLookup p.1 s2_tile_search_results = some p.2 := by
    rw [dictComprehension_eq_foldl, List.foldl_append, List.foldl_cons]
    have hd1 : ∀ p ∈ pre.foldl (dcStep s2_tile_search_results) [], p.1 ∈ pre ∧
        pyLookup p.1 s2_tile_search_results = some p.2 := by
      intro p hp
      rcases dcFold_mem s2_tile_search_results pre [] p hp with h | h
      · exact absurd h (List.not_mem_nil p)
      · exact h
    have hnotany :
        ¬ ((pre.foldl (dcStep s2_tile_search_results) []).any
            (fun q => decide (q.1 = t)) = true) := by
      intro hany
      obtain ⟨q, hq, hqt⟩ := List.any_eq_true.mp hany
      exact htpre ((of_decide_eq_true hqt) ▸ (hd1 q hq).1)
    have hstep : dcStep s2_tile_search_results (pre.foldl (dcStep s2_tile_search_results) []) t =
        pre.foldl (dcStep s2_tile_search_results) [] ++ [(t, e)] := by
      simp only [dcStep, he, dictSet]
      rw [if_neg hnotany]
    rw [hstep]
    obtain ⟨NEW, hfold, hnew⟩ := dcFold_grows s2_tile_search_results post
      (pre.foldl (dcStep s2_tile_search_results) [] ++ [(t, e)])
      (by
        intro p hp
        rcases List.mem_append.mp hp with h | h
        · exact (hd1 p h).2
        · rw [List.mem_singleton.mp h]
          exact he)
    refine ⟨NEW, ?_, hnew⟩
    rw [hfold]
    simp
  obtain ⟨NEW, hrel, hnew⟩ := hrelevant
  rw [_get_best_product_id_for_each_grid_tile, if_pos, if_neg (by omega)]
  · rw [hrel, pyMinBy_first_min (fun p => p.2.cloud_cover) (t, e)]
    · intro p hp
      have hd1 : p.1 ∈ pre ∧ pyLookup p.1 s2_tile_search_results = some p.2 := by
        rcases dcFold_mem s2_tile_search_results pre [] p hp with h | h
        · exact absurd h (List.not_mem_nil p)
        · exact h
      have := hfirst p.1 hd1.1
      rw [ccOf, hd1.2] at this
      exact this
    · intro p hp
      have h := hnew p hp
      have := hmin p.1 (List.mem_append.mpr (Or.inr (List.mem_cons_of_mem t h.1)))
      rw [ccOf, h.2] at this
      exact this
  · rw [List.all_eq_true]
    intro u hu
    have := hall u hu
    simpa using this

/-- C7 witness (spec example): `T = [tileA, tileB]` with cloud covers 10
and 5: `tileB`'s product id is selected. -/
theorem multi_tile_min_cloud_cover_witness :
    ((∀ u ∈ ["tileA"] ++ "tileB" :: [],
        u ∈ ([("tileA", ProductEntry.mk "PA" 10), ("tileB", ProductEntry.mk "PB" 5)].map Prod.fst))
      ∧ 1 < (["tileA"] ++ "tileB" :: []).length
      ∧ pyLookup "tileB" [("tileA", ProductEntry.mk "PA" 10), ("tileB", ProductEntry.mk "PB" 5)] =
          some (ProductEntry.mk "PB" 5)
      ∧ (∀ u ∈ ["tileA"] ++ "tileB" :: [],
          (ProductEntry.mk "PB" 5).cloud_cover ≤
            ccOf [("tileA", ProductEntry.mk "PA" 10), ("tileB", ProductEntry.mk "PB" 5)] u)
      ∧ (∀ u ∈ ["tileA"],
          (ProductEntry.mk "PB" 5).cloud_cover <
            ccOf [("tileA", ProductEntry.mk "PA" 10), ("tileB", ProductEntry.mk "PB" 5)] u))
    ∧ _get_best_product_id_for_each_grid_tile
        [("tileA", ProductEntry.mk "PA" 10), ("tileB", ProductEntry.mk "PB" 5)]
        (["tileA"] ++ "tileB" :: []) = .ok (some "PB") := by
  refine ⟨⟨by decide, by decide, by decide, by decide, by decide⟩, ?_⟩
  exact multi_tile_min_cloud_cover
    [("tileA", ProductEntry.mk "PA" 10), ("tileB", ProductEntry.mk "PB" 5)]
    ["tileA"] [] "tileB" (ProductEntry.mk "PB" 5)
    (by decide) (by decide) (by decide) (by decide) (by decide)

/-! ## Grid construction (C8) -/

/-- When the cell size divides the extent exactly, `arange` produces
precisely the `n` coordinates `start, start + s, ...`. -/
theorem arange_exact (a b s : ℚ) (n : ℕ) (hs : 0 < s) (hab : b - a = n * s) :
    arange a b s = (List.range n).map (fun i : ℕ => a + (i : ℚ) * s) := by
  rw [arange]
  have hq : (b - a) / s = (n : ℚ) := by
    rw [hab]
    field_simp
  rw [hq]
  norm_num

/-- Every generated coordinate is strictly below the requested maximum. -/
theorem arange_lt (a b s : ℚ) (n : ℕ) (hs : 0 < s) (hab : b - a = n * s) :
    ∀ c ∈ arange a b s, c < b := by
  rw [arange_exact a b s n hs hab]
  intro c hc
  obtain ⟨i, hi, rfl⟩ := List.mem_map.mp hc
  rw [List.mem_range] at hi
  have hin : (i : ℚ) < (n : ℚ) := by
    exact_mod_cast hi
  have hmul : (i : ℚ) * s < (n : ℚ) * s := mul_lt_mul_of_pos_right hin hs
  linarith

/-- One-dimensional coverage: the cells anchored at the `n` generated
coordinates tile the interval `[a, a + n*s]` exactly. -/
theorem oneD_union (a s : ℚ) (n : ℕ) (hs : 0 < s) (hn : 1 ≤ n) (p : ℚ) :
    (∃ i : ℕ, i < n ∧ a + (i : ℚ) * s ≤ p ∧ p ≤ a + (i : ℚ) * s + s) ↔
      a ≤ p ∧ p ≤ a + n * s := by
  constructor
  · rintro ⟨i, hin, h1, h2⟩
    have hnn : (0 : ℚ) ≤ (i : ℚ) * s := mul_nonneg (by positivity) hs.le
    have hin' : (i : ℚ) + 1 ≤ (n : ℚ) := by
      exact_mod_cast hin
    have hle : ((i : ℚ) + 1) * s ≤ (n : ℚ) * s := mul_le_mul_of_nonneg_right hin' hs.le
    constructor
    · linarith
    · nlinarith
  · rintro ⟨h1, h2⟩
    have hq0 : 0 ≤ (p - a) / s := div_nonneg (by linarith) hs.le
    have hfl : (0 : ℤ) ≤ ⌊(p - a) / s⌋ := Int.floor_nonneg.mpr hq0
    have hcast : ((⌊(p - a) / s⌋.toNat : ℕ) : ℚ) = ((⌊(p - a) / s⌋ : ℤ) : ℚ) := by
      exact_mod_cast congrArg (fun z : ℤ => (z : ℚ)) (Int.toNat_of_nonneg hfl)
    have hucast : ((⌊(p - a) / s⌋.toNat : ℕ) : ℚ) ≤ (p - a) / s := by
      rw [hcast]
      exact Int.floor_le _
    have huup : (p - a) / s < ((⌊(p - a) / s⌋.toNat : ℕ) : ℚ) + 1 := by
      rw [hcast]
      exact Int.lt_floor_add_one _
    refine ⟨min ⌊(p - a) / s⌋.toNat (n - 1), by omega, ?_, ?_⟩
    · have hmin : ((min ⌊(p - a) / s⌋.toNat (n - 1) : ℕ) : ℚ) ≤ (p - a) / s := by
        refine le_trans ?_ hucast
        exact_mod_cast min_le_left _ _
      have hms := mul_le_mul_of_nonneg_right hmin hs.le
      rw [div_mul_cancel₀ _ (ne_of_gt hs)] at hms
      linarith
    · by_cases hcase : ⌊(p - a) / s⌋.toNat ≤ n - 1
      · rw [min_eq_left hcase]
        have hlt := (div_lt_iff₀ hs).mp huup
        nlinarith
      · rw [min_eq_right (le_of_not_le hcase)]
        have hn1 : ((n - 1 : ℕ) : ℚ) + 1 = (n : ℚ) := by
          push_cast [Nat.cast_sub hn]
          ring
        nlinarith [hn1]

/-- Summing a constant over a list. -/
theorem sum_map_const {α : Type} (l : List α) (k : ℕ) :
    (l.map (fun _ => k)).sum = l.length * k := by
  induction l with
  | nil => simp
  | cons a t ih =>
    simp only [List.map_cons, List.sum_cons, List.length_cons, ih]
    ring

/-- Cell-list membership for an exactly-divided bounding box. -/
theorem mem_create_vector_grid (min_lon min_lat max_lon max_lat s : ℚ)
    (nx ny : ℕ) (hs : 0 < s)
    (hdx : max_lon - min_lon = nx * s) (hdy : max_lat - min_lat = ny * s)
    (c : ℚ × ℚ) :
    c ∈ create_vector_grid min_lon min_lat max_lon max_lat s ↔
      ∃ i : ℕ, i < nx ∧ ∃ j : ℕ, j < ny ∧
        c = (min_lon + (i : ℚ) * s, min_lat + (j : ℚ) * s) := by
  rw [create_vector_grid, generate_flattened_grid_coords,
    arange_exact min_lon max_lon s nx hs hdx, arange_exact min_lat max_lat s ny hs hdy]
  constructor
  · intro hc
    obtain ⟨y, hy, hcy⟩ := List.mem_flatMap.mp hc
    obtain ⟨x, hx, hcx⟩ := List.mem_map.mp hcy
    obtain ⟨j, hj, hyj⟩ := List.mem_map.mp hy
    obtain ⟨i, hi, hxi⟩ := List.mem_map.mp hx
    rw [List.mem_range] at hi hj
    exact ⟨i, hi, j, hj, by rw [← hcx, ← hxi, ← hyj]⟩
  · rintro ⟨i, hi, j, hj, rfl⟩
    refine List.mem_flatMap.mpr ⟨min_lat + (j : ℚ) * s, ?_, ?_⟩
    · exact List.mem_map.mpr ⟨j, List.mem_range.mpr hj, rfl⟩
    · exact List.mem_map.mpr ⟨min_lon + (i : ℚ) * s,
        List.mem_map.mpr ⟨i, List.mem_range.mpr hi, rfl⟩, rfl⟩

/-- C8: for a bounding box whose extents are exact multiples of the cell
size, the generated per-axis start coordinates are exactly
`min, min + s, min + 2s, ...`, all strictly below the maximum; the grid
has exactly `nx * ny = ((maxx-minx)/s) * ((maxy-miny)/s)` cells; and the
union of the generated cell bounds is exactly the bounding box. -/
theorem grid_coverage (min_lon min_lat max_lon max_lat s : ℚ) (nx ny : ℕ)
    (hxlt : min_lon < max_lon) (hylt : min_lat < max_lat) (hs : 0 < s)
    (hdx : max_lon - min_lon = nx * s) (hdy : max_lat - min_lat = ny * s) :
    (arange min_lon max_lon s = (List.range nx).map (fun i : ℕ => min_lon + (i : ℚ) * s)
      ∧ ∀ c ∈ arange min_lon max_lon s, c < max_lon)
    ∧ (arange min_lat max_lat s = (List.range ny).map (fun i : ℕ => min_lat + (i : ℚ) * s)
      ∧ ∀ c ∈ arange min_lat max_lat s, c < max_lat)
    ∧ (create_vector_grid min_lon min_lat max_lon max_lat s).length = nx * ny
    ∧ (⋃ c ∈ create_vector_grid min_lon min_lat max_lon max_lat s, cellBounds s c) =
        Set.Icc min_lon max_lon ×ˢ Set.Icc min_lat max_lat := by
  have hnx1 : 1 ≤ nx := by
    rcases Nat.eq_zero_or_pos nx with h | h
    · subst h
      rw [Nat.cast_zero, zero_mul] at hdx
      linarith
    · exact h
  have hny1 : 1 ≤ ny := by
    rcases Nat.eq_zero_or_pos ny with h | h
    · subst h
      rw [Nat.cast_zero, zero_mul] at hdy
      linarith
    · exact h
  refine ⟨⟨arange_exact min_lon max_lon s nx hs hdx,
    arange_lt min_lon max_lon s nx hs hdx⟩,
    ⟨arange_exact min_lat max_lat s ny hs hdy,
    arange_lt min_lat max_lat s ny hs hdy⟩, ?_, ?_⟩
  · rw [create_vector_grid, generate_flattened_grid_coords,
      arange_exact min_lon max_lon s nx hs hdx, arange_exact min_lat max_lat s ny hs hdy,
      List.length_flatMap]
    have hconst : (List.map
        (List.length ∘ fun lat => List.map (fun lon => (lon, lat))
          (List.map (fun i : ℕ => min_lon + (i : ℚ) * s) (List.range nx)))
        (List.map (fun i : ℕ => min_lat + (i : ℚ) * s) (List.range ny))) =
        List.map (fun _ => nx) (List.map (fun i : ℕ => min_lat + (i : ℚ) * s) (List.range ny)) := by
      apply List.map_congr_left
      intro y _
      simp [Function.comp]
    rw [hconst, sum_map_const]
    simp [mul_comm]
  · apply Set.ext
    rintro ⟨px, py⟩
    simp only [Set.mem_iUnion, exists_prop]
    constructor
    · rintro ⟨c, hc, hpc⟩
      obtain ⟨i, hi, j, hj, rfl⟩ :=
        (mem_create_vector_grid min_lon min_lat max_lon max_lat s nx ny hs hdx hdy c).mp hc
      simp only [cellBounds, Set.mem_prod, Set.mem_Icc] at hpc
      obtain ⟨⟨hx1, hx2⟩, hy1, hy2⟩ := hpc
      have hx := (oneD_union min_lon s nx hs hnx1 px).mp ⟨i, hi, hx1, hx2⟩
      have hy := (oneD_union min_lat s ny hs hny1 py).mp ⟨j, hj, hy1, hy2⟩
      simp only [Set.mem_prod, Set.mem_Icc]
      exact ⟨⟨hx.1, by linarith [hx.2]⟩, hy.1, by linarith [hy.2]⟩
    · intro hp
      simp only [Set.mem_prod, Set.mem_Icc] at hp
      obtain ⟨⟨hx1, hx2⟩, hy1, hy2⟩ := hp
      obtain ⟨i, hi, hxl, hxr⟩ := (oneD_union min_lon s nx hs hnx1 px).mpr
        ⟨hx1, by linarith⟩
      obtain ⟨j, hj, hyl, hyr⟩ := (oneD_union min_lat s ny hs hny1 py).mpr
        ⟨hy1, by linarith⟩
      refine ⟨(min_lon + (i : ℚ) * s, min_lat + (j : ℚ) * s), ?_, ?_⟩
      · exact (mem_create_vector_grid min_lon min_lat max_lon max_lat s nx ny hs hdx hdy
          _).mpr ⟨i, hi, j, hj, rfl⟩
      · simp only [cellBounds, Set.mem_prod, Set.mem_Icc]
        exact ⟨⟨hxl, hxr⟩, hyl, hyr⟩

/-- C8 witness (spec example): `bbox = (100, 45, 110, 55)`, cell size 1:
100 cells and exact coverage. -/
theorem grid_coverage_witness :
    ((100 : ℚ) < 110 ∧ (45 : ℚ) < 55 ∧ (0 : ℚ) < 1
      ∧ (110 : ℚ) - 100 = (10 : ℕ) * 1 ∧ (55 : ℚ) - 45 = (10 : ℕ) * 1)
    ∧ (create_vector_grid 100 45 110 55 1).length = 10 * 10
    ∧ (⋃ c ∈ create_vector_grid 100 45 110 55 1, cellBounds 1 c) =
        Set.Icc (100 : ℚ) 110 ×ˢ Set.Icc (45 : ℚ) 55 := by
  have h := grid_coverage 100 45 110 55 1 10 10 (by norm_num) (by norm_num)
    (by norm_num) (by norm_num) (by norm_num)
  exact ⟨⟨by norm_num, by norm_num, by norm_num, by norm_num, by norm_num⟩,
    h.2.2.1, h.2.2.2⟩



/-! ## `spatial_join_within` effects (C9, C10) -/

/-- C9: `spatial_join_within` mutates its `vector_features` input in
place — the caller's dataframe has gained the temporary `feature_id`
column after the call (vector.py:494 assigns it to the input and only the
returned copy drops it), contradicting the claim (and the function's own
docstring) that inputs are left unchanged. -/
theorem spatial_join_mutates_input :
    (spatial_join_within ⟨["geometry"], 3⟩ (fun _ => ["31TCJ"]) "name" "s2_tiles").1 =
      ⟨["geometry", "feature_id"], 3⟩
    ∧ (⟨["geometry", "feature_id"], 3⟩ : VectorFrame) ≠ ⟨["geometry"], 3⟩ := by
  constructor
  · rfl
  · decide

/-- C10: every per-feature list of covering tile names stored by
`spatial_join_within` is the ascending sort of the join's emission-ordered
matches: sorted, and a permutation of the matched names. -/
theorem join_lists_sorted (vector_features : VectorFrame)
    (joinMatches : ℕ → List String) (polygon_column vector_column_name : String)
    (i : ℕ) (h : joinMatches i ≠ []) :
    ∃ names,
      (spatial_join_within vector_features joinMatches polygon_column
          vector_column_name).2.2 i = some names
      ∧ List.Sorted (fun a b : String => a ≤ b) names
      ∧ List.Perm names (joinMatches i) := by
  cases hm : joinMatches i with
  | nil => exact absurd hm h
  | cons a t =>
    refine ⟨(a :: t).insertionSort (fun a b => a ≤ b), ?_, ?_, ?_⟩
    · rw [spatial_join_within]
      simp only [hm]
    · exact List.sorted_insertionSort (fun a b => a ≤ b) (a :: t)
    · rw [← hm]
      exact hm ▸ List.perm_insertionSort (fun a b => a ≤ b) (a :: t)

/-- C10 witness: emission order `["tileB", "tileA"]` is stored as the
sorted `["tileA", "tileB"]`. -/
theorem join_lists_sorted_witness :
    ((fun _ : ℕ => ["tileB", "tileA"]) 0 ≠ [])
    ∧ ∃ names,
        (spatial_join_within ⟨["geometry"], 1⟩ (fun _ => ["tileB", "tileA"])
            "name" "s2_tiles").2.2 0 = some names
        ∧ List.Sorted (fun a b : String => a ≤ b) names
        ∧ List.Perm names ((fun _ : ℕ => ["tileB", "tileA"]) 0) := by
  refine ⟨by decide, ?_⟩
  exact join_lists_sorted ⟨["geometry"], 1⟩ (fun _ => ["tileB", "tileA"])
    "name" "s2_tiles" 0 (by decide)

end GeoTools
